import Mathlib

/-!
Verification of the perfetto trace-processor SQL virtual-table bridge
(src/trace_processor/sqlite/db_sqlite_table.cc) and of the memory-mapping
tracker (src/trace_processor/importers/common/mapping_tracker.cc,
virtual_memory_mapping.cc), via a shallow embedding of the relevant
functions. Machine integers are modelled as Nat (all the modelled
quantities are unsigned and never overflow in the modelled code paths);
the double-precision cost arithmetic of EstimateCost is modelled over the
rationals, with the C log2 function abstracted as a parameter constrained
by the properties of the real logarithm that the proofs need.
-/

namespace Perfetto

/-! ## Data model of the virtual-table bridge (db_sqlite_table.cc) -/

/-- The SQLITE_INDEX_CONSTRAINT_* operator codes handled by
SqliteOpToFilterOp (db_sqlite_table.cc:60). The C++ switch is over raw
integers and is fatal on any other value, so the inductive carries exactly
the handled codes. -/
inductive SqliteOp
  | eq | gt | lt | ne | ge | le | isNull | isNotNull | glob | regexp
  | like | limit | offset | is | isNot
deriving DecidableEq

/-- FilterOp (db/column/types.h), the internal filter operator enum. -/
inductive FilterOp
  | eq | ne | lt | le | gt | ge | isNull | isNotNull | glob | regex
deriving DecidableEq

/-- Whether the build supports regexes (regex::IsRegexSupported in
util/regex.h). The claims concern a build with regex support, so this is
modelled as true. -/
def regexSupported : Bool := true

/-- SqliteOpToFilterOp (db_sqlite_table.cc:60): translation of SQLite
operator codes to internal filter operators; none means the constraint is
left for SQLite to evaluate. -/
def sqliteOpToFilterOp : SqliteOp → Option FilterOp
  | .eq => some .eq
  | .gt => some .gt
  | .lt => some .lt
  | .ne => some .ne
  | .ge => some .ge
  | .le => some .le
  | .isNull => some .isNull
  | .isNotNull => some .isNotNull
  | .glob => some .glob
  | .regexp => if regexSupported then some .regex else none
  | .like => none
  | .limit => none
  | .offset => none
  | .is => none
  | .isNot => none

/-- sqlite_utils::IsOpEq. -/
def isOpEq (op : SqliteOp) : Bool := op = .eq

/-- sqlite_utils::IsOpLe. -/
def isOpLe (op : SqliteOp) : Bool := op = .le

/-- sqlite_utils::IsOpLt. -/
def isOpLt (op : SqliteOp) : Bool := op = .lt

/-- sqlite_utils::IsOpGe. -/
def isOpGe (op : SqliteOp) : Bool := op = .ge

/-- sqlite_utils::IsOpGt. -/
def isOpGt (op : SqliteOp) : Bool := op = .gt

/-- One column of Table::Schema (db/table.h): name plus the flags the
bridge consults. -/
structure SchemaColumn where
  name : String
  is_id : Bool
  is_set_id : Bool
  is_sorted : Bool
  is_hidden : Bool
deriving DecidableEq

instance : Inhabited SchemaColumn := ⟨⟨"", false, false, false, false⟩⟩

/-- Table::Schema: the ordered list of columns. -/
structure TableSchema where
  columns : List SchemaColumn
deriving DecidableEq

/-- Access schema.columns[i]. The C++ indexing has undefined behaviour out
of bounds; the model totalises with a default all-false column (the claims
only exercise in-bounds indices). -/
def colAt (s : TableSchema) (i : Nat) : SchemaColumn := s.columns.getD i default

/-- QueryConstraints::Constraint (query_constraints.h): a column index and
an operator (the constraint value travels separately through argv). -/
structure QcConstraint where
  column : Nat
  op : SqliteOp
deriving DecidableEq

/-- QueryConstraints::OrderBy. -/
structure QcOrderBy where
  iColumn : Nat
  desc : Bool
deriving DecidableEq

/-- QueryConstraints: the constraint and order-by sequences handed over by
SQLite. -/
structure QueryConstraints where
  constraints : List QcConstraint
  orderBy : List QcOrderBy
deriving DecidableEq

/-! ## ModifyConstraints (db_sqlite_table.cc:285) -/

/-- The std::sort comparator of DbSqliteTable::ModifyConstraints
(db_sqlite_table.cc:292), translated branch by branch. -/
def constraintLess (s : TableSchema) (a b : QcConstraint) : Bool :=
  let ac := colAt s a.column
  let bc := colAt s b.column
  if ac.is_id || bc.is_id then ac.is_id && !bc.is_id
  else if ac.is_set_id || bc.is_set_id then ac.is_set_id && !bc.is_set_id
  else if ac.is_sorted || bc.is_sorted then ac.is_sorted && !bc.is_sorted
  else false

/-- The priority rank realised by the comparator: 0 for an is_id column,
else 1 for is_set_id, else 2 for is_sorted, else 3. The comparator is
exactly the strict order on this rank (constraintLess_eq_rank below). -/
def constraintRank (s : TableSchema) (c : QcConstraint) : Nat :=
  let col := colAt s c.column
  if col.is_id then 0 else if col.is_set_id then 1 else if col.is_sorted then 2 else 3

/-- Rank computed from the three flags alone. -/
def flagRank (i se so : Bool) : Nat :=
  if i then 0 else if se then 1 else if so then 2 else 3

/-- The contract of the std::sort call at db_sqlite_table.cc:292: any
conforming implementation produces some permutation of the input in which
no element compares (by the ModifyConstraints comparator) before an
earlier one. std::sort guarantees nothing more; in particular the
relative order of comparator-equivalent constraints is unspecified. -/
def StdSortSpec (s : TableSchema) (input output : List QcConstraint) : Prop :=
  List.Perm output input
  ∧ List.Pairwise (fun a b => ¬ constraintLess s b a = true) output

/-- The std::sort call on the constraint vector (db_sqlite_table.cc:292),
modelled by one conforming implementation (insertion sort by the
comparator rank) so that modifyConstraints stays executable. Only the
StdSortSpec contract is guaranteed by std::sort, and no theorem below
depends on which conforming permutation this choice produces: the
reordering theorem is stated against StdSortSpec itself, and the
ordering-pruning properties are invariant under the choice. -/
def sortConstraints (s : TableSchema) (cs : List QcConstraint) : List QcConstraint :=
  cs.insertionSort (fun a b => constraintRank s a ≤ constraintRank s b)

/-- DbSqliteTable::ModifyConstraints (db_sqlite_table.cc:285): sort the
constraints, drop order-bys whose column has an equality constraint, then
drop the trailing run of ascending order-bys on sorted columns. -/
def modifyConstraints (s : TableSchema) (qc : QueryConstraints) : QueryConstraints :=
  let cs := sortConstraints s qc.constraints
  let ob1 := qc.orderBy.filter
    (fun o => !(cs.any (fun c => c.column == o.iColumn && isOpEq c.op)))
  let ob2 := (ob1.reverse.dropWhile
    (fun o => !(o.desc || !(colAt s o.iColumn).is_sorted))).reverse
  ⟨cs, ob2⟩

/-! ## EstimateCost (db_sqlite_table.cc:344)

The C++ computes costs in double precision using the C log2 function. The
model computes over the rationals and abstracts log2 as a parameter lg;
the monotonicity theorem assumes of lg exactly the properties of the real
base-2 logarithm it needs (monotonicity, non-negativity from 1 up, and
monotonicity of n / (2 * log2 n) on [2, inf), all true of the real log2).
-/

/-- DbSqliteTable::QueryCost. -/
structure QueryCost where
  cost : ℚ
  rows : Nat
deriving DecidableEq

/-- The constraint loop of EstimateCost (db_sqlite_table.cc:372): fold over
the constraints, stopping as soon as fewer than 2 rows remain. csLen is
cs.size() of the full constraint list (consulted by the equality branch).
The uint32 cast of the C++ truncates the non-negative double towards zero,
modelled by the natural floor. -/
def filterCostLoop (lg : Nat → ℚ) (s : TableSchema) (csLen : Nat) :
    List QcConstraint → ℚ → Nat → ℚ × Nat
  | [], fc, r => (fc, r)
  | c :: rest, fc, r =>
    if r < 2 then (fc, r)
    else if isOpEq c.op && (colAt s c.column).is_id then
      filterCostLoop lg s csLen rest (fc + 10) 1
    else if isOpEq c.op then
      filterCostLoop lg s csLen rest
        (fc + (if csLen == 1 || (colAt s c.column).is_sorted then lg r else (r : ℚ)))
        (max (⌊(r : ℚ) / (2 * lg r)⌋₊) 1)
    else if (colAt s c.column).is_sorted &&
        (isOpLe c.op || isOpLt c.op || isOpGt c.op || isOpGe c.op) then
      filterCostLoop lg s csLen rest (fc + lg r)
        (max (⌊(r : ℚ) / (2 * lg r)⌋₊) 1)
    else
      filterCostLoop lg s csLen rest (fc + (r : ℚ)) (max (r / 2) 1)

/-- DbSqliteTable::EstimateCost (db_sqlite_table.cc:344): fixed cost 1000,
plus the filter cost, plus the sort cost, plus twice the final row count
as iteration cost. An empty table pays only the fixed cost. -/
def estimateCost (lg : Nat → ℚ) (s : TableSchema) (rowCount : Nat)
    (qc : QueryConstraints) : QueryCost :=
  if rowCount = 0 then ⟨1000, 0⟩
  else
    let res := filterCostLoop lg s qc.constraints.length qc.constraints 0 rowCount
    let sortCost : ℚ := ((qc.orderBy.length * res.2 : Nat) : ℚ) * lg res.2
    ⟨1000 + res.1 + sortCost + (res.2 : ℚ) * 2, res.2⟩

/-- The properties of the real base-2 logarithm used by the cost
monotonicity proof. -/
structure Log2Spec (lg : Nat → ℚ) : Prop where
  mono : ∀ m n : Nat, m ≤ n → lg m ≤ lg n
  nonneg : ∀ n : Nat, 1 ≤ n → 0 ≤ lg n
  ratio_mono : ∀ m n : Nat, 2 ≤ m → m ≤ n →
    (m : ℚ) / (2 * lg m) ≤ (n : ℚ) / (2 * lg n)

/-- A concrete function satisfying Log2Spec, used by witnesses. -/
def lgOne : Nat → ℚ := fun n => if n = 0 then 0 else 1

/-! ## BestIndex and table-function argument validation
(db_sqlite_table.cc:150 and db_sqlite_table.cc:235) -/

/-- SQLITE_OK. -/
def sqliteOk : Int := 0

/-- SQLITE_CONSTRAINT, the constraint-error sentinel BestIndex returns. -/
def sqliteConstraintErr : Int := 19

/-- The std::find_if of ValidateTableFunctionArguments: the first
constraint on column i together with the remainder of the list after it
(over which the C++ then counts further matches). -/
def findConstraintSplit (i : Nat) :
    List QcConstraint → Option (QcConstraint × List QcConstraint)
  | [] => none
  | c :: rest =>
    if c.column = i then some (c, rest) else findConstraintSplit i rest

/-- The body of the ValidateTableFunctionArguments loop for one hidden
column i (db_sqlite_table.cc:157): error if no constraint on i, if the
first one is not an equality, or if any later constraint is also on i. -/
def validateHiddenColumn (qc : QueryConstraints) (i : Nat) : Option String :=
  match findConstraintSplit i qc.constraints with
  | none => some "Failed to find constraint on column"
  | some (c, rest) =>
    if c.op ≠ SqliteOp.eq then some "Only equality constraints supported on column"
    else if 0 < rest.countP (fun x => x.column == i) then
      some "Found multiple constraints on column"
    else none

/-- ValidateTableFunctionArguments (db_sqlite_table.cc:150): scan the
schema columns in order and return the first error on a hidden column. -/
def validateTableFunctionArguments (s : TableSchema) (qc : QueryConstraints) :
    Option String :=
  (List.range s.columns.length).findSome? (fun i =>
    if !(colAt s i).is_hidden then none else validateHiddenColumn qc i)

/-- The information the static BestIndex helper fills into BestIndexInfo
(db_sqlite_table.cc:259). -/
structure BestIndexInfo where
  estimatedCost : ℚ
  estimatedRows : Nat
  sqliteOmitConstraint : List Bool
  sqliteOmitOrderBy : Bool
deriving DecidableEq

/-- The static DbSqliteTable::BestIndex helper (db_sqlite_table.cc:259):
cost and rows from EstimateCost, per-constraint omit flags exactly where
the operator is translatable, and omit_order_by always true. -/
def bestIndexInfo (lg : Nat → ℚ) (s : TableSchema) (rowCount : Nat)
    (qc : QueryConstraints) : BestIndexInfo :=
  let qcost := estimateCost lg s rowCount qc
  ⟨qcost.cost, qcost.rows,
   qc.constraints.map (fun c => (sqliteOpToFilterOp c.op).isSome), true⟩

/-- The member DbSqliteTable::BestIndex (db_sqlite_table.cc:235) for the
TableFunction computation: validate the hidden-column arguments, returning
SQLITE_CONSTRAINT on failure, otherwise SQLITE_OK with the filled info. -/
def bestIndexTableFunction (lg : Nat → ℚ) (s : TableSchema)
    (estimatedRowCount : Nat) (qc : QueryConstraints) :
    Int × Option BestIndexInfo :=
  match validateTableFunctionArguments s qc with
  | some _ => (sqliteConstraintErr, none)
  | none => (sqliteOk, some (bestIndexInfo lg s estimatedRowCount qc))

/-! ## Cursor::Filter constraint translation (db_sqlite_table.cc:587) -/

/-- SqlValue (basic_types.h) as produced by SqliteValueToSqlValue
(db_sqlite_table.cc:97). The double and blob payloads are never inspected
by the modelled code and are elided. -/
inductive SqlValue
  | null
  | long (v : Int)
  | dbl
  | str (s : String)
  | bytes
deriving DecidableEq

/-- Constraint (db/column/types.h): the translated constraint the cursor
hands to QueryToRowMap. -/
structure Constraint where
  colIdx : Nat
  op : FilterOp
  value : SqlValue
deriving DecidableEq

/-- Order (db/column/types.h). -/
structure Order where
  colIdx : Nat
  desc : Bool
deriving DecidableEq

/-- The regex validation inside PopulateConstraintsAndArguments
(db_sqlite_table.cc:604): a regex value must be a string and must compile.
Whether a string compiles (regex::Regex::Create, outside src/) is
abstracted as the parameter regexCompiles. -/
def regexCheck (regexCompiles : String → Bool) (op : FilterOp) (v : SqlValue) :
    Option String :=
  if op = FilterOp.regex then
    match v with
    | .str sv => if regexCompiles sv then none else some "regex pattern does not compile"
    | _ => some "Value has to be a string"
  else none

/-- The loop of Cursor::PopulateConstraintsAndArguments
(db_sqlite_table.cc:593) over the constraint list zipped with argv:
untranslatable operators are skipped, regex values are validated, and each
translated constraint either lands in the constraint vector or, when its
column is a table-function argument column, overwrites the corresponding
argument slot. argIdx models argument_index_per_column_ with none standing
for kInvalidArgumentIndex. -/
def populateLoop (regexCompiles : String → Bool) (argIdx : List (Option Nat)) :
    List (QcConstraint × SqlValue) → List SqlValue →
    Except String (List Constraint × List SqlValue)
  | [], args => .ok ([], args)
  | (cs, v) :: rest, args =>
    match sqliteOpToFilterOp cs.op with
    | none => populateLoop regexCompiles argIdx rest args
    | some op =>
      match regexCheck regexCompiles op v with
      | some e => .error e
      | none =>
        match argIdx.getD cs.column none with
        | none =>
          match populateLoop regexCompiles argIdx rest args with
          | .error e => .error e
          | .ok (tail, args2) => .ok (⟨cs.column, op, v⟩ :: tail, args2)
        | some ai => populateLoop regexCompiles argIdx rest (args.set ai v)

/-- Cursor::PopulateOrderBys (db_sqlite_table.cc:626). -/
def populateOrderBys (qc : QueryConstraints) : List Order :=
  qc.orderBy.map (fun o => ⟨o.iColumn, o.desc⟩)

/-- Cursor::Filter (db_sqlite_table.cc:524) up to and including the
QueryToRowMap call, for a cursor without table-function argument columns
fixed: constraint translation runs first and any error aborts the filter
before the upstream table is consulted. The upstream
Table::QueryToRowMap is abstracted as the parameter queryToRowMap with an
arbitrary result type, so an error result is necessarily produced without
invoking it. -/
def cursorFilter {τ : Type} (regexCompiles : String → Bool)
    (queryToRowMap : List Constraint → List Order → τ)
    (argIdx : List (Option Nat)) (args0 : List SqlValue)
    (qc : QueryConstraints) (argv : List SqlValue) :
    Except String (List Constraint × List Order × List SqlValue × τ) :=
  match populateLoop regexCompiles argIdx (qc.constraints.zip argv) args0 with
  | .error e => .error e
  | .ok (cs, args) =>
    let os := populateOrderBys qc
    .ok (cs, os, args, queryToRowMap cs os)

/-! ## The sort-and-cache policy (db_sqlite_table.cc:472)

QueryCache itself (query_cache.h) is not under src/; its two operations
are modelled from the spec. The cached value is modelled by the sort
specification of the sorted copy the builder produces. -/

/-- The sorted copy of the upstream table a cache entry holds, identified
by the order list it was sorted with. -/
structure SortedTable where
  sortedBy : List Order
deriving DecidableEq

/-- The cache: entries keyed by the constraint list. -/
abbrev QueryCache := List (List QcConstraint × SortedTable)

/-- Modelled from the spec: QueryCache::GetIfCached (query_cache.h is
outside src/) returns the entry for the given constraint set, if any. -/
def getIfCached (cache : QueryCache) (key : List QcConstraint) : Option SortedTable :=
  cache.findSome? (fun e => if e.1 = key then some e.2 else none)

/-- Modelled from the spec: QueryCache::GetOrCache (query_cache.h is
outside src/) returns the cached entry if present, otherwise runs the
builder and stores its result. -/
def getOrCache (cache : QueryCache) (key : List QcConstraint)
    (build : Unit → SortedTable) : SortedTable × QueryCache :=
  match getIfCached cache key with
  | some t => (t, cache)
  | none => let t := build (); (t, cache ++ [(key, t)])

/-- FilterHistory (sqlite_table.h): whether the constraint shape matches
the previous Filter call on this cursor. -/
inductive FilterHistory
  | different
  | same
deriving DecidableEq

/-- The cursor state touched by TryCacheCreateSortedTable: the repeated
counter, the latched sorted table, and the (process-wide) query cache.
The modelled cursor has a cache (the C++ nullptr-cache early return is for
subclasses that disable caching, outside the claims). -/
structure CursorCacheState where
  repeatedCacheCount : Nat
  sortedCacheTable : Option SortedTable
  cache : QueryCache
deriving DecidableEq

/-- Cursor::TryCacheCreateSortedTable (db_sqlite_table.cc:472), translated
branch by branch. On kDifferent the counter resets and the cache is
consulted. On kSame, with nothing latched, the counter is post-incremented
and compared against kRepeatedThreshold = 3; only when the pre-increment
value equals 3 and the constraint set is a single equality on a non-sorted
column is the cache populated with a copy sorted ascending by that column
and latched. -/
def tryCacheCreateSortedTable (s : TableSchema) (st : CursorCacheState)
    (qc : QueryConstraints) (history : FilterHistory) : CursorCacheState :=
  match history with
  | .different =>
    { st with repeatedCacheCount := 0,
              sortedCacheTable := getIfCached st.cache qc.constraints }
  | .same =>
    if st.sortedCacheTable.isSome then st
    else
      let old := st.repeatedCacheCount
      let st1 := { st with repeatedCacheCount := old + 1 }
      if old ≠ 3 then st1
      else
        match qc.constraints with
        | [c] =>
          if !isOpEq c.op then st1
          else if (colAt s c.column).is_sorted then st1
          else
            let res := getOrCache st1.cache qc.constraints
              (fun _ => ⟨[⟨c.column, false⟩]⟩)
            { st1 with sortedCacheTable := some res.1, cache := res.2 }
        | _ => st1

/-! ## Mapping tracker (mapping_tracker.cc) -/

/-- AddressRange (address_range.h, outside src/). Modelled from the spec:
a half-open interval over 64-bit addresses; the end field is renamed stop
because end is a Lean keyword. -/
structure AddressRange where
  start : Nat
  stop : Nat
deriving DecidableEq

/-- Modelled from the spec: two half-open ranges overlap when their
intersection is non-empty. -/
def rangesOverlap (a b : AddressRange) : Bool :=
  max a.start b.start < min a.stop b.stop

/-- CreateMappingParams (virtual_memory_mapping.h). The build id is an
uninterpreted byte string. -/
structure CreateMappingParams where
  memoryRange : AddressRange
  exactOffset : Nat
  startOffset : Nat
  loadBias : Nat
  name : String
  buildId : Option String
deriving DecidableEq

/-- A KernelMemoryMapping as far as the tracker observes it: its dense
mapping id plus the creation parameters it retains. -/
structure KernelMemoryMapping where
  mappingId : Nat
  memoryRange : AddressRange
  exactOffset : Nat
  loadBias : Nat
  name : String
  buildId : Option String
deriving DecidableEq

/-- The state of MappingTracker touched by CreateKernelMemoryMapping: the
singleton kernel core, the kernel-modules range map, the registry of
created mappings (AddMapping), and the dense-id counter. -/
structure MappingTrackerState where
  nextMappingId : Nat
  kernel : Option KernelMemoryMapping
  kernelModules : List (AddressRange × KernelMemoryMapping)
  mappings : List KernelMemoryMapping
deriving DecidableEq

/-- base::StringView::StartsWith, over the character list of the
strings. -/
def strStartsWith (p s : String) : Bool := p.data.isPrefixOf s.data

/-- IsKernelModule (mapping_tracker.cc:34): a name is a kernel module
unless it starts with the string below or equals /kernel. Note the C++
uses StartsWith, not equality, for the kallsyms marker. -/
def isKernelModule (name : String) : Bool :=
  !(strStartsWith "[kernel.kallsyms]" name) && name ≠ "/kernel"

/-- Modelled from the spec: AddressRangeMap::Emplace (address_range.h is
outside src/) inserts only a range disjoint from every stored range and
reports failure otherwise; the caller turns failure into a fatal check. -/
def rangeMapEmplace (m : List (AddressRange × KernelMemoryMapping))
    (r : AddressRange) (v : KernelMemoryMapping) :
    Option (List (AddressRange × KernelMemoryMapping)) :=
  if m.any (fun e => rangesOverlap e.1 r) then none else some (m ++ [(r, v)])

/-- The KernelMemoryMapping constructor as far as the tracker observes it:
the dense id comes from the external stack-profile mapping table insert,
modelled by the tracker id counter. -/
def mkKernelMapping (id : Nat) (p : CreateMappingParams) : KernelMemoryMapping :=
  ⟨id, p.memoryRange, p.exactOffset, p.loadBias, p.name, p.buildId⟩

/-- MappingTracker::CreateKernelMemoryMapping (mapping_tracker.cc:55).
none models a fatal PERFETTO_CHECK failure: a kernel-core call whose range
disagrees with the installed core, or a kernel-module call overlapping an
existing module. -/
def createKernelMemoryMapping (st : MappingTrackerState)
    (p : CreateMappingParams) :
    Option (KernelMemoryMapping × MappingTrackerState) :=
  let isModule := isKernelModule p.name
  match st.kernel, isModule with
  | some k, false =>
    if p.memoryRange = k.memoryRange then some (k, st) else none
  | _, _ =>
    let m := mkKernelMapping st.nextMappingId p
    if isModule then
      match rangeMapEmplace st.kernelModules m.memoryRange m with
      | none => none
      | some km =>
        some (m, { st with nextMappingId := st.nextMappingId + 1,
                           kernelModules := km,
                           mappings := st.mappings ++ [m] })
    else
      some (m, { st with nextMappingId := st.nextMappingId + 1,
                         kernel := some m,
                         mappings := st.mappings ++ [m] })

/-! ## Frame interning (virtual_memory_mapping.cc:84) -/

/-- A row of the external stack_profile_frame table as inserted by
InternFrameImpl: interned name, owning mapping, relative pc. The external
string interner maps equal strings to equal ids, so the name is carried
directly. -/
structure FrameRow where
  name : String
  mappingId : Nat
  relPc : Nat
deriving DecidableEq

/-- The state InternFrame reads and writes: the external frame table
(frame ids are dense row indices), the per-mapping interned_frames_ map,
frames_by_rel_pc_, and the sequence of OnFrameCreated notifications sent
to the stack-profile tracker. -/
structure FrameState where
  frameTable : List FrameRow
  internedFrames : List ((Nat × String) × Nat)
  framesByRelPc : List (Nat × List Nat)
  notifications : List Nat
deriving DecidableEq

/-- Lookup in the interned_frames_ map. -/
def findInterned (key : Nat × String) :
    List ((Nat × String) × Nat) → Option Nat
  | [] => none
  | e :: rest => if e.1 = key then some e.2 else findInterned key rest

/-- frames_by_rel_pc_[rel_pc].push_back(frame_id). -/
def pushFrameAt (pc fid : Nat) :
    List (Nat × List Nat) → List (Nat × List Nat)
  | [] => [(pc, [fid])]
  | e :: rest =>
    if e.1 = pc then (e.1, e.2 ++ [fid]) :: rest else e :: pushFrameAt pc fid rest

/-- VirtualMemoryMapping::InternFrameImpl (virtual_memory_mapping.cc:103):
return the interned frame id if the (rel_pc, name) key is known, otherwise
insert a new row into the external frame table and record its id. -/
def internFrameImpl (mappingId : Nat) (st : FrameState) (relPc : Nat)
    (fname : String) : (Nat × Bool) × FrameState :=
  match findInterned (relPc, fname) st.internedFrames with
  | some fid => ((fid, false), st)
  | none =>
    let fid := st.frameTable.length
    ((fid, true),
     { st with frameTable := st.frameTable ++ [⟨fname, mappingId, relPc⟩],
               internedFrames := st.internedFrames ++ [((relPc, fname), fid)] })

/-- The JIT delegate abstracted as a pure response function: what
JitDelegate::InternFrame would answer for a (rel_pc, name) request. -/
abbrev JitDelegateFn := Nat → String → Nat × Bool

/-- VirtualMemoryMapping::InternFrame (virtual_memory_mapping.cc:84):
forward to the JIT delegate when one is set, otherwise intern locally; on
a newly created frame, append it to frames_by_rel_pc_[rel_pc] and notify
OnFrameCreated. -/
def internFrame (jd : Option JitDelegateFn) (mappingId : Nat)
    (st : FrameState) (relPc : Nat) (fname : String) : Nat × FrameState :=
  let step :=
    match jd with
    | some d => (d relPc fname, st)
    | none => internFrameImpl mappingId st relPc fname
  let fid := step.1.1
  let wasInserted := step.1.2
  let st1 := step.2
  if wasInserted then
    (fid, { st1 with framesByRelPc := pushFrameAt relPc fid st1.framesByRelPc,
                     notifications := st1.notifications ++ [fid] })
  else (fid, st1)

/-! ## Concrete fixtures used by counterexamples and witnesses -/

/-- The priority key exactly as the specification words it: lexicographic
on the tuple (is_id, is_set_id, is_sorted) with a set flag ranking lower,
encoded as a three-bit number. Stated from the spec for comparison with
the comparator the code actually uses. -/
def specLexKey (s : TableSchema) (c : QcConstraint) : Nat :=
  (if (colAt s c.column).is_id then 0 else 4)
  + (if (colAt s c.column).is_set_id then 0 else 2)
  + (if (colAt s c.column).is_sorted then 0 else 1)

/-- Two-column schema where both columns are is_id and only the second is
is_set_id: the comparator treats the two as equivalent while the
lexicographic key separates them. -/
def lexSchema : TableSchema :=
  ⟨[⟨"a", true, false, false, false⟩, ⟨"b", true, true, false, false⟩]⟩

/-- Equality constraints on both columns of lexSchema, in index order. -/
def lexQc : QueryConstraints := ⟨[⟨0, .eq⟩, ⟨1, .eq⟩], []⟩

/-- One-column schema whose only column is the id column. -/
def idSchema : TableSchema := ⟨[⟨"id", true, false, false, false⟩]⟩

/-- A single equality constraint on column 0, no orderings. -/
def idEqQc : QueryConstraints := ⟨[⟨0, .eq⟩], []⟩

/-- Schema with a sorted non-id column and an order-by fixture: an
ascending order on the sorted column 1 following an order on column 0
carrying an equality constraint. -/
def pruneSchema : TableSchema :=
  ⟨[⟨"id", true, false, false, false⟩, ⟨"ts", false, false, true, false⟩]⟩

/-- Constraint and order set exercising both pruning phases: the order on
column 0 is dropped for its equality constraint, the descending order on
the sorted column 1 survives as the last order. -/
def pruneQc : QueryConstraints :=
  ⟨[⟨0, .eq⟩], [⟨0, false⟩, ⟨1, true⟩]⟩

/-- Table-function schema: visible column 0, hidden argument column 1. -/
def tfSchema : TableSchema :=
  ⟨[⟨"v", true, false, false, false⟩, ⟨"h", false, false, false, true⟩]⟩

/-- A well-formed table-function constraint set: one equality on the
hidden column. -/
def tfGoodQc : QueryConstraints := ⟨[⟨1, .eq⟩], []⟩

/-- A regex constraint on column 0 used by the Filter error witness. -/
def regexQc : QueryConstraints := ⟨[⟨0, .regexp⟩], []⟩

/-- Schema of the sort-cache scenario: single non-sorted column c0. -/
def cacheSchema : TableSchema := ⟨[⟨"c0", false, false, false, false⟩]⟩

/-- The repeated constraint set of the sort-cache scenario: c0 = X. -/
def cacheQc : QueryConstraints := ⟨[⟨0, SqliteOp.eq⟩], []⟩

/-- Cursor cache state right after a kDifferent Filter call on an empty
cache (counter reset to 0, nothing latched yet). -/
def cacheReset : CursorCacheState :=
  tryCacheCreateSortedTable cacheSchema ⟨7, none, []⟩ cacheQc .different

/-- One kSame Filter call of the sort-cache scenario. -/
def cacheSame (st : CursorCacheState) : CursorCacheState :=
  tryCacheCreateSortedTable cacheSchema st cacheQc .same

/-- Kernel-mapping params whose name starts with the kallsyms marker
without being equal to it (kallsyms section names look like this). -/
def kallsymsTextParams : CreateMappingParams :=
  ⟨⟨4096, 8192⟩, 0, 0, 0, "[kernel.kallsyms]_text", none⟩

/-- Kernel-module params. -/
def moduleParams : CreateMappingParams :=
  ⟨⟨4096, 8192⟩, 0, 0, 0, "mymod.ko", none⟩

/-- Kernel-core params with the exact /kernel marker. -/
def kernelCoreParams : CreateMappingParams :=
  ⟨⟨4096, 8192⟩, 0, 0, 0, "/kernel", none⟩

/-- The empty tracker state. -/
def emptyTracker : MappingTrackerState := ⟨0, none, [], []⟩

/-! ## Theorems -/

/-- Strict comparison of flag ranks coincides with the cascade of the
comparator branches. -/
theorem flagRank_lt_iff (ai ase aso bi bse bso : Bool) :
    ((if ai || bi then ai && !bi
      else if ase || bse then ase && !bse
      else if aso || bso then aso && !bso
      else false) = true)
      ↔ flagRank ai ase aso < flagRank bi bse bso := by
  revert ai ase aso bi bse bso
  decide

/-- The ModifyConstraints comparator is exactly the strict order on
constraintRank. -/
theorem constraintLess_eq_rank (s : TableSchema) (a b : QcConstraint) :
    constraintLess s a b = true ↔ constraintRank s a < constraintRank s b := by
  unfold constraintLess constraintRank
  exact flagRank_lt_iff (colAt s a.column).is_id (colAt s a.column).is_set_id
    (colAt s a.column).is_sorted (colAt s b.column).is_id
    (colAt s b.column).is_set_id (colAt s b.column).is_sorted

/-- lgOne meets the abstract log2 requirements. -/
theorem lgOne_spec : Log2Spec lgOne := by
  refine ⟨?_, ?_, ?_⟩
  · intro m n h
    unfold lgOne
    by_cases hm : m = 0
    · simp only [hm, if_true, reduceIte]
      split <;> norm_num
    · have hn : n ≠ 0 := by omega
      simp [hm, hn]
  · intro n h
    unfold lgOne
    have : n ≠ 0 := by omega
    simp [this]
  · intro m n h2 hmn
    unfold lgOne
    have hm : m ≠ 0 := by omega
    have hn : n ≠ 0 := by omega
    simp only [hm, hn, if_false]
    have : (m : ℚ) ≤ (n : ℚ) := by exact_mod_cast hmn
    linarith

/-- Sortedness under the comparator coincides with sortedness by the
cascade rank, pairwise. -/
theorem pairwise_not_less_iff_rank_le (s : TableSchema)
    (l : List QcConstraint) :
    List.Pairwise (fun a b => ¬ constraintLess s b a = true) l
      ↔ List.Pairwise (fun a b => constraintRank s a ≤ constraintRank s b) l := by
  constructor
  · intro h
    refine h.imp ?_
    intro a b hab
    rw [constraintLess_eq_rank] at hab
    omega
  · intro h
    refine h.imp ?_
    intro a b hab hlt
    rw [constraintLess_eq_rank] at hlt
    omega

/-- C2 (amended): ModifyConstraints replaces the constraint sequence by a
permutation of itself sorted by the cascade priority rank of the
comparator (0 for is_id, else 1 for is_set_id, else 2 for is_sorted, else
3; lower rank first). The modelled sort meets the std::sort contract, and
every output that contract admits is such a rank-sorted permutation, so
the multiset of constraints is preserved whichever conforming permutation
std::sort produces; the relative order of equal-rank constraints is not
guaranteed. -/
theorem modifyConstraints_rank_sorted_perm (s : TableSchema)
    (qc : QueryConstraints) :
    StdSortSpec s qc.constraints (modifyConstraints s qc).constraints
    ∧ ∀ out, StdSortSpec s qc.constraints out →
        (List.Perm out qc.constraints
         ∧ List.Pairwise (fun a b => constraintRank s a ≤ constraintRank s b)
             out) := by
  have hc : (modifyConstraints s qc).constraints
      = sortConstraints s qc.constraints := rfl
  constructor
  · constructor
    · rw [hc]
      exact List.perm_insertionSort _ _
    · rw [hc]
      rw [pairwise_not_less_iff_rank_le]
      haveI : IsTotal QcConstraint
          (fun a b => constraintRank s a ≤ constraintRank s b) :=
        ⟨fun a b => Nat.le_total _ _⟩
      haveI : IsTrans QcConstraint
          (fun a b => constraintRank s a ≤ constraintRank s b) :=
        ⟨fun _ _ _ hab hbc => le_trans hab hbc⟩
      exact List.sorted_insertionSort _ _
  · intro out hout
    exact ⟨hout.1, (pairwise_not_less_iff_rank_le s out).mp hout.2⟩

/-- C2 witness: the contract-to-rank-sortedness implication applied to a
concrete conforming output. -/
theorem modifyConstraints_rank_sorted_perm_witness :
    List.Perm lexQc.constraints lexQc.constraints
    ∧ List.Pairwise
        (fun a b => constraintRank lexSchema a ≤ constraintRank lexSchema b)
        lexQc.constraints :=
  (modifyConstraints_rank_sorted_perm lexSchema lexQc).2 lexQc.constraints
    ⟨List.Perm.refl _, by decide⟩

/-- C2 counterexample: on lexSchema and lexQc (equality constraints on two
is_id columns of which only the second is is_set_id) the comparator deems
the two constraints equivalent, so the input order itself satisfies the
std::sort contract although it is not sorted by the lexicographic
(is_id, is_set_id, is_sorted) key the claim states; the modelled
ModifyConstraints produces exactly that non-lexicographically-sorted
order. The code therefore does not guarantee the claimed lexicographic
sortedness. -/
theorem modifyConstraints_not_lex_sorted :
    StdSortSpec lexSchema lexQc.constraints lexQc.constraints
    ∧ ¬ List.Pairwise
        (fun a b => specLexKey lexSchema a ≤ specLexKey lexSchema b)
        lexQc.constraints
    ∧ (modifyConstraints lexSchema lexQc).constraints = lexQc.constraints
    ∧ ¬ List.Pairwise
        (fun a b => specLexKey lexSchema a ≤ specLexKey lexSchema b)
        ((modifyConstraints lexSchema lexQc).constraints) := by
  refine ⟨⟨List.Perm.refl _, by decide⟩, by decide, by decide, by decide⟩

/-- C6: after ModifyConstraints no remaining order-by is on a column that
carries an equality constraint, and the last remaining order-by (if any)
is descending or on a non-sorted column, i.e. no trailing ascending order
on a sorted column survives. -/
theorem modifyConstraints_orderings_pruned (s : TableSchema)
    (qc : QueryConstraints) :
    (∀ o ∈ (modifyConstraints s qc).orderBy,
      ∀ c ∈ (modifyConstraints s qc).constraints,
        ¬(c.column = o.iColumn ∧ isOpEq c.op = true))
    ∧ (∀ o, (modifyConstraints s qc).orderBy.getLast? = some o →
        o.desc = true ∨ (colAt s o.iColumn).is_sorted = false) := by
  constructor
  · intro o ho c hc hbad
    have ho1 : o ∈ (qc.orderBy.filter
        (fun o => !((sortConstraints s qc.constraints).any
          (fun c => c.column == o.iColumn && isOpEq c.op)))) := by
      have ho2 := ho
      simp only [modifyConstraints, List.mem_reverse] at ho2
      exact List.mem_reverse.mp ((List.dropWhile_sublist _).mem ho2)
    have hp := List.of_mem_filter ho1
    simp only [Bool.not_eq_true', List.any_eq_false] at hp
    have hcs : c ∈ sortConstraints s qc.constraints := hc
    have := hp c hcs
    simp only [Bool.and_eq_true, beq_iff_eq] at this
    exact this ⟨hbad.1, hbad.2⟩
  · intro o ho
    have hrev : (modifyConstraints s qc).orderBy.reverse
        = ((qc.orderBy.filter
            (fun o => !((sortConstraints s qc.constraints).any
              (fun c => c.column == o.iColumn && isOpEq c.op)))).reverse.dropWhile
          (fun o => !(o.desc || !(colAt s o.iColumn).is_sorted))) := by
      simp only [modifyConstraints, List.reverse_reverse]
    have hhead : ((modifyConstraints s qc).orderBy.reverse).head? = some o := by
      rw [List.head?_reverse]
      exact ho
    rw [hrev] at hhead
    have hnot := List.head?_dropWhile_not
      (fun o => !(o.desc || !(colAt s o.iColumn).is_sorted))
      ((qc.orderBy.filter
        (fun o => !((sortConstraints s qc.constraints).any
          (fun c => c.column == o.iColumn && isOpEq c.op)))).reverse)
    rw [hhead] at hnot
    simp only [Bool.not_eq_false', Bool.or_eq_true, Bool.not_eq_true'] at hnot
    exact hnot

/-- C6 witness: the pruning theorem applied to the concrete pruning
fixture, where the surviving last order is the descending one on the
sorted column and no survivor shares a column with the equality
constraint. -/
theorem modifyConstraints_orderings_pruned_witness :
    ((⟨1, true⟩ : QcOrderBy) ∈ (modifyConstraints pruneSchema pruneQc).orderBy)
    ∧ ¬((⟨0, SqliteOp.eq⟩ : QcConstraint).column
          = (⟨1, true⟩ : QcOrderBy).iColumn
        ∧ isOpEq (⟨0, SqliteOp.eq⟩ : QcConstraint).op = true)
    ∧ ((⟨1, true⟩ : QcOrderBy).desc = true
        ∨ (colAt pruneSchema (⟨1, true⟩ : QcOrderBy).iColumn).is_sorted
            = false) :=
  ⟨by decide,
   (modifyConstraints_orderings_pruned pruneSchema pruneQc).1
     ⟨1, true⟩ (by decide) ⟨0, SqliteOp.eq⟩ (by decide),
   (modifyConstraints_orderings_pruned pruneSchema pruneQc).2
     ⟨1, true⟩ (by decide)⟩

/-- The constraint loop never drops the row estimate below 1 when it
starts at 1 or more (every update is clamped to at least 1). -/
theorem filterCostLoop_rows_pos (lg : Nat → ℚ) (s : TableSchema) (csLen : Nat) :
    ∀ (cs : List QcConstraint) (fc : ℚ) (r : Nat), 1 ≤ r →
      1 ≤ (filterCostLoop lg s csLen cs fc r).2 := by
  intro cs
  induction cs with
  | nil =>
    intro fc r h
    simpa [filterCostLoop] using h
  | cons c rest ih =>
    intro fc r h
    simp only [filterCostLoop]
    by_cases h2 : r < 2
    · rw [if_pos h2]
      exact h
    · rw [if_neg h2]
      by_cases b1 : (isOpEq c.op && (colAt s c.column).is_id) = true
      · rw [if_pos b1]
        exact ih _ _ le_rfl
      · rw [if_neg b1]
        by_cases b2 : (isOpEq c.op) = true
        · rw [if_pos b2]
          exact ih _ _ (le_max_right _ _)
        · rw [if_neg b2]
          by_cases b3 : ((colAt s c.column).is_sorted &&
              (isOpLe c.op || isOpLt c.op || isOpGt c.op || isOpGe c.op)) = true
          · rw [if_pos b3]
            exact ih _ _ (le_max_right _ _)
          · rw [if_neg b3]
            exact ih _ _ (le_max_right _ _)

/-- The constraint loop never decreases the accumulated filter cost
(every contribution is non-negative, given a non-negative log). -/
theorem filterCostLoop_fc_ge (lg : Nat → ℚ) (s : TableSchema) (csLen : Nat)
    (hnn : ∀ n : Nat, 1 ≤ n → 0 ≤ lg n) :
    ∀ (cs : List QcConstraint) (fc : ℚ) (r : Nat),
      fc ≤ (filterCostLoop lg s csLen cs fc r).1 := by
  intro cs
  induction cs with
  | nil =>
    intro fc r
    simp [filterCostLoop]
  | cons c rest ih =>
    intro fc r
    simp only [filterCostLoop]
    by_cases h2 : r < 2
    · rw [if_pos h2]
    · rw [if_neg h2]
      have hlgr : 0 ≤ lg r := hnn r (by omega)
      have hrq : (0 : ℚ) ≤ (r : ℚ) := by positivity
      by_cases b1 : (isOpEq c.op && (colAt s c.column).is_id) = true
      · rw [if_pos b1]
        exact le_trans (by linarith) (ih _ _)
      · rw [if_neg b1]
        by_cases b2 : (isOpEq c.op) = true
        · rw [if_pos b2]
          refine le_trans ?_ (ih _ _)
          have : (0 : ℚ) ≤
              (if csLen == 1 || (colAt s c.column).is_sorted then lg r
               else (r : ℚ)) := by
            split <;> assumption
          linarith
        · rw [if_neg b2]
          by_cases b3 : ((colAt s c.column).is_sorted &&
              (isOpLe c.op || isOpLt c.op || isOpGt c.op || isOpGe c.op)) = true
          · rw [if_pos b3]
            exact le_trans (by linarith) (ih _ _)
          · rw [if_neg b3]
            exact le_trans (by linarith) (ih _ _)

/-- Monotonicity of the constraint loop in both the starting cost and the
starting row count, for a log2 satisfying Log2Spec. -/
theorem filterCostLoop_mono (lg : Nat → ℚ) (hlg : Log2Spec lg)
    (s : TableSchema) (csLen : Nat) :
    ∀ (cs : List QcConstraint) (fcA fcB : ℚ) (rA rB : Nat),
      fcA ≤ fcB → rA ≤ rB → 1 ≤ rA →
      (filterCostLoop lg s csLen cs fcA rA).1
          ≤ (filterCostLoop lg s csLen cs fcB rB).1
      ∧ (filterCostLoop lg s csLen cs fcA rA).2
          ≤ (filterCostLoop lg s csLen cs fcB rB).2 := by
  intro cs
  induction cs with
  | nil =>
    intro fcA fcB rA rB hfc hr h1
    simpa [filterCostLoop] using ⟨hfc, hr⟩
  | cons c rest ih =>
    intro fcA fcB rA rB hfc hr h1
    by_cases hA : rA < 2
    · have hAeq : filterCostLoop lg s csLen (c :: rest) fcA rA = (fcA, rA) := by
        simp only [filterCostLoop]
        rw [if_pos hA]
      rw [hAeq]
      constructor
      · exact le_trans hfc (filterCostLoop_fc_ge lg s csLen hlg.nonneg _ _ _)
      · have hrA1 : rA = 1 := by omega
        rw [hrA1]
        exact filterCostLoop_rows_pos lg s csLen _ _ _ (by omega)
    · have hB : ¬ rB < 2 := by omega
      simp only [filterCostLoop]
      rw [if_neg hA, if_neg hB]
      have h2A : (2 : Nat) ≤ rA := by omega
      have hlgA : 0 ≤ lg rA := hlg.nonneg rA (by omega)
      have hcast : ((rA : ℚ)) ≤ (rB : ℚ) := by exact_mod_cast hr
      by_cases b1 : (isOpEq c.op && (colAt s c.column).is_id) = true
      · rw [if_pos b1, if_pos b1]
        exact ih _ _ _ _ (by linarith) le_rfl le_rfl
      · rw [if_neg b1, if_neg b1]
        have hup : max (⌊(rA : ℚ) / (2 * lg rA)⌋₊) 1
            ≤ max (⌊(rB : ℚ) / (2 * lg rB)⌋₊) 1 :=
          max_le_max (Nat.floor_le_floor (hlg.ratio_mono rA rB h2A hr)) le_rfl
        by_cases b2 : (isOpEq c.op) = true
        · rw [if_pos b2, if_pos b2]
          have hcontr : (if csLen == 1 || (colAt s c.column).is_sorted then lg rA
                else (rA : ℚ))
              ≤ (if csLen == 1 || (colAt s c.column).is_sorted then lg rB
                else (rB : ℚ)) := by
            split
            · exact hlg.mono rA rB hr
            · exact hcast
          exact ih _ _ _ _ (by linarith) hup (le_max_right _ _)
        · rw [if_neg b2, if_neg b2]
          by_cases b3 : ((colAt s c.column).is_sorted &&
              (isOpLe c.op || isOpLt c.op || isOpGt c.op || isOpGe c.op)) = true
          · rw [if_pos b3, if_pos b3]
            have := hlg.mono rA rB hr
            exact ih _ _ _ _ (by linarith) hup (le_max_right _ _)
          · rw [if_neg b3, if_neg b3]
            have hdiv : rA / 2 ≤ rB / 2 := Nat.div_le_div_right hr
            exact ih _ _ _ _ (by linarith)
              (max_le_max hdiv le_rfl) (le_max_right _ _)

/-- C4: the estimated cost is monotone in the table row count, for any
log2 function with the properties of the real base-2 logarithm. -/
theorem estimateCost_cost_mono (lg : Nat → ℚ) (hlg : Log2Spec lg)
    (s : TableSchema) (qc : QueryConstraints) (r1 r2 : Nat) (h : r1 ≤ r2) :
    (estimateCost lg s r1 qc).cost ≤ (estimateCost lg s r2 qc).cost := by
  by_cases h1 : r1 = 0
  · by_cases h2 : r2 = 0
    · simp [estimateCost, h1, h2]
    · have hr2 : 1 ≤ r2 := by omega
      have hfc : (0 : ℚ)
          ≤ (filterCostLoop lg s qc.constraints.length qc.constraints 0 r2).1 :=
        filterCostLoop_fc_ge lg s _ hlg.nonneg _ 0 r2
      have hrows : 1 ≤ (filterCostLoop lg s qc.constraints.length
          qc.constraints 0 r2).2 :=
        filterCostLoop_rows_pos lg s _ _ 0 r2 hr2
      have hlgr : 0 ≤ lg (filterCostLoop lg s qc.constraints.length
          qc.constraints 0 r2).2 := hlg.nonneg _ hrows
      have hsort : (0 : ℚ) ≤ ((qc.orderBy.length *
          (filterCostLoop lg s qc.constraints.length qc.constraints 0 r2).2
            : Nat) : ℚ)
          * lg (filterCostLoop lg s qc.constraints.length
              qc.constraints 0 r2).2 := by
        apply mul_nonneg _ hlgr
        positivity
      have hiter : (0 : ℚ) ≤ ((filterCostLoop lg s qc.constraints.length
          qc.constraints 0 r2).2 : ℚ) * 2 := by positivity
      simp only [estimateCost, if_pos h1, if_neg h2]
      linarith
  · have h2 : r2 ≠ 0 := by omega
    obtain ⟨hfc, hrows⟩ := filterCostLoop_mono lg hlg s qc.constraints.length
      qc.constraints 0 0 r1 r2 le_rfl h (by omega)
    have h1A : 1 ≤ (filterCostLoop lg s qc.constraints.length
        qc.constraints 0 r1).2 :=
      filterCostLoop_rows_pos lg s _ _ 0 r1 (by omega)
    have hsort : ((qc.orderBy.length *
        (filterCostLoop lg s qc.constraints.length qc.constraints 0 r1).2
          : Nat) : ℚ)
        * lg (filterCostLoop lg s qc.constraints.length qc.constraints 0 r1).2
        ≤ ((qc.orderBy.length *
          (filterCostLoop lg s qc.constraints.length qc.constraints 0 r2).2
            : Nat) : ℚ)
        * lg (filterCostLoop lg s qc.constraints.length
            qc.constraints 0 r2).2 := by
      apply mul_le_mul
      · exact_mod_cast Nat.mul_le_mul_left qc.orderBy.length hrows
      · exact hlg.mono _ _ hrows
      · exact hlg.nonneg _ h1A
      · positivity
    have hiter : ((filterCostLoop lg s qc.constraints.length
        qc.constraints 0 r1).2 : ℚ) * 2
        ≤ ((filterCostLoop lg s qc.constraints.length
          qc.constraints 0 r2).2 : ℚ) * 2 := by
      have : ((filterCostLoop lg s qc.constraints.length
          qc.constraints 0 r1).2 : ℚ)
          ≤ ((filterCostLoop lg s qc.constraints.length
            qc.constraints 0 r2).2 : ℚ) := by exact_mod_cast hrows
      linarith
    simp only [estimateCost, if_neg h1, if_neg h2]
    linarith

/-- C4 witness: cost monotonicity applied at a concrete schema, constraint
set and pair of row counts. -/
theorem estimateCost_cost_mono_witness :
    (estimateCost lgOne pruneSchema 3 pruneQc).cost
      ≤ (estimateCost lgOne pruneSchema 7 pruneQc).cost :=
  estimateCost_cost_mono lgOne lgOne_spec pruneSchema pruneQc 3 7 (by norm_num)

/-- C5: a single equality constraint on the is_id column of a non-empty
table (at least two rows) costs exactly 1000 + 10 + 0 + 2 = 1012 with one
estimated row, for every log2 function. -/
theorem estimateCost_idEq_fast_track (lg : Nat → ℚ) (s : TableSchema)
    (i rc : Nat) (hid : (colAt s i).is_id = true) (h2 : 2 ≤ rc) :
    estimateCost lg s rc ⟨[⟨i, SqliteOp.eq⟩], []⟩ = ⟨1012, 1⟩ := by
  have hrc : rc ≠ 0 := by omega
  have hnl : ¬ rc < 2 := by omega
  have hcond : (isOpEq SqliteOp.eq && (colAt s i).is_id) = true := by
    simp [isOpEq, hid]
  simp only [estimateCost, if_neg hrc, filterCostLoop, if_neg hnl, if_pos hcond]
  norm_num

/-- C5 witness: the fast track evaluated on a concrete one-column id
schema with a million rows. -/
theorem estimateCost_idEq_fast_track_witness :
    (colAt idSchema 0).is_id = true ∧ 2 ≤ 1000000
    ∧ estimateCost lgOne idSchema 1000000 ⟨[⟨0, SqliteOp.eq⟩], []⟩ = ⟨1012, 1⟩ :=
  ⟨rfl, by norm_num,
   estimateCost_idEq_fast_track lgOne idSchema 0 1000000 rfl (by norm_num)⟩

/-- C10: the estimated row count is zero exactly for an empty table, and
any non-empty table yields at least one estimated row under every
constraint set. -/
theorem estimateCost_rows_zero_iff (lg : Nat → ℚ) (s : TableSchema)
    (rc : Nat) (qc : QueryConstraints) :
    ((estimateCost lg s rc qc).rows = 0 ↔ rc = 0)
    ∧ (1 ≤ rc → 1 ≤ (estimateCost lg s rc qc).rows) := by
  by_cases h : rc = 0
  · simp [estimateCost, h]
  · have h1 : 1 ≤ rc := by omega
    have hrows := filterCostLoop_rows_pos lg s qc.constraints.length
      qc.constraints 0 rc h1
    simp only [estimateCost, if_neg h]
    constructor
    · constructor
      · intro hr
        omega
      · intro hr
        exact absurd hr h
    · intro _
      exact hrows

/-- C10 witness: the rows characterisation applied at a concrete schema,
row count and constraint set. -/
theorem estimateCost_rows_zero_iff_witness :
    1 ≤ (estimateCost lgOne pruneSchema 5 pruneQc).rows :=
  (estimateCost_rows_zero_iff lgOne pruneSchema 5 pruneQc).2 (by norm_num)

/-- findConstraintSplit finds nothing exactly when no constraint is on the
column. -/
theorem findConstraintSplit_eq_none (i : Nat) :
    ∀ cs : List QcConstraint,
      findConstraintSplit i cs = none ↔ ∀ c ∈ cs, c.column ≠ i := by
  intro cs
  induction cs with
  | nil => simp [findConstraintSplit]
  | cons c rest ih =>
    simp only [findConstraintSplit]
    by_cases hc : c.column = i
    · simp [hc]
    · simp [hc, ih]

/-- findConstraintSplit returns the first constraint on the column and the
tail after it: the scanned prefix carries no constraint on the column. -/
theorem findConstraintSplit_eq_some (i : Nat) :
    ∀ (cs : List QcConstraint) (c : QcConstraint) (rest : List QcConstraint),
      findConstraintSplit i cs = some (c, rest) →
      c.column = i ∧ ∃ pre, cs = pre ++ c :: rest ∧ ∀ x ∈ pre, x.column ≠ i := by
  intro cs
  induction cs with
  | nil => intro c rest h; simp [findConstraintSplit] at h
  | cons d tail ih =>
    intro c rest h
    simp only [findConstraintSplit] at h
    by_cases hd : d.column = i
    · rw [if_pos hd] at h
      obtain ⟨hc, hrest⟩ := Prod.mk.injEq .. ▸ Option.some.injEq .. ▸ h
      refine ⟨by rw [← hc]; exact hd, [], by simp [← hc, ← hrest], by simp⟩
    · rw [if_neg hd] at h
      obtain ⟨hcol, pre, hpre, hnone⟩ := ih c rest h
      refine ⟨hcol, d :: pre, by simp [hpre], ?_⟩
      intro x hx
      rcases List.mem_cons.mp hx with hx | hx
      · rw [hx]; exact hd
      · exact hnone x hx

/-- validateHiddenColumn succeeds exactly when the column has exactly one
constraint and it is an equality: it fails iff the column has no
constraint, some constraint on it is not an equality, or it has more than
one constraint. -/
theorem validateHiddenColumn_isSome_iff (qc : QueryConstraints) (i : Nat) :
    (validateHiddenColumn qc i).isSome = true
      ↔ ((∀ c ∈ qc.constraints, c.column ≠ i)
         ∨ (∃ c ∈ qc.constraints, c.column = i ∧ c.op ≠ SqliteOp.eq)
         ∨ 2 ≤ qc.constraints.countP (fun c => c.column == i)) := by
  unfold validateHiddenColumn
  cases hsplit : findConstraintSplit i qc.constraints with
  | none =>
    simp only [Option.isSome_some, true_iff]
    exact Or.inl ((findConstraintSplit_eq_none i qc.constraints).mp hsplit)
  | some pair =>
    obtain ⟨c, rest⟩ := pair
    obtain ⟨hcol, pre, hpre, hnone⟩ :=
      findConstraintSplit_eq_some i qc.constraints c rest hsplit
    have hcount : qc.constraints.countP (fun c => c.column == i)
        = 1 + rest.countP (fun c => c.column == i) := by
      rw [hpre, List.countP_append, List.countP_cons]
      have hzero : pre.countP (fun c => c.column == i) = 0 := by
        rw [List.countP_eq_zero]
        intro x hx
        simp only [beq_iff_eq]
        exact hnone x hx
      simp [hzero, hcol, Nat.add_comm]
    dsimp only
    by_cases hop : c.op = SqliteOp.eq
    case neg =>
      rw [if_pos hop]
      simp only [Option.isSome_some, true_iff]
      exact Or.inr (Or.inl ⟨c, by rw [hpre]; simp, hcol, hop⟩)
    case pos =>
      rw [if_neg (by simp [hop])]
      by_cases hmore : 0 < rest.countP (fun c => c.column == i)
      · rw [if_pos hmore]
        simp only [Option.isSome_some, true_iff]
        exact Or.inr (Or.inr (by omega))
      · rw [if_neg hmore]
        refine iff_of_false (by simp) ?_
        push_neg
        refine ⟨⟨c, by rw [hpre]; simp, hcol⟩, ?_, by omega⟩
        intro x hx hxc
        rw [hpre] at hx
        rcases List.mem_append.mp hx with hx | hx
        · exact absurd hxc (hnone x hx)
        · rcases List.mem_cons.mp hx with hx | hx
          · rw [hx]
            exact hop
          · exfalso
            have : 0 < rest.countP (fun c => c.column == i) := by
              rw [List.countP_pos_iff]
              exact ⟨x, hx, by simp [hxc]⟩
            omega

/-- findSome? produces a value exactly when some list element yields
one. -/
theorem findSome?_isSome_iff {α β : Type} (f : α → Option β) :
    ∀ l : List α,
      (l.findSome? f).isSome = true ↔ ∃ x ∈ l, (f x).isSome = true := by
  intro l
  induction l with
  | nil => simp [List.findSome?]
  | cons a l ih =>
    simp only [List.findSome?]
    cases hfa : f a with
    | none => simp [hfa, ih]
    | some b => simp [hfa]

/-- C7: for a TableFunction table, BestIndex returns SQLITE_CONSTRAINT iff
some hidden column of the schema has no constraint, a non-equality
constraint, or more than one constraint; otherwise it returns SQLITE_OK
with the cost, row estimate and omit flags filled in from the cost model
and the operator translation. -/
theorem bestIndexTableFunction_constraint_iff (lg : Nat → ℚ)
    (s : TableSchema) (est : Nat) (qc : QueryConstraints) :
    ((bestIndexTableFunction lg s est qc).1 = sqliteConstraintErr
      ↔ ∃ i, i < s.columns.length ∧ (colAt s i).is_hidden = true ∧
          ((∀ c ∈ qc.constraints, c.column ≠ i)
           ∨ (∃ c ∈ qc.constraints, c.column = i ∧ c.op ≠ SqliteOp.eq)
           ∨ 2 ≤ qc.constraints.countP (fun c => c.column == i)))
    ∧ ((bestIndexTableFunction lg s est qc).1 ≠ sqliteConstraintErr →
        bestIndexTableFunction lg s est qc
          = (sqliteOk, some (bestIndexInfo lg s est qc))) := by
  have hval : (validateTableFunctionArguments s qc).isSome = true
      ↔ ∃ i, i < s.columns.length ∧ (colAt s i).is_hidden = true ∧
          ((∀ c ∈ qc.constraints, c.column ≠ i)
           ∨ (∃ c ∈ qc.constraints, c.column = i ∧ c.op ≠ SqliteOp.eq)
           ∨ 2 ≤ qc.constraints.countP (fun c => c.column == i)) := by
    unfold validateTableFunctionArguments
    rw [findSome?_isSome_iff]
    constructor
    · rintro ⟨i, hi, hsome⟩
      rw [List.mem_range] at hi
      by_cases hh : (colAt s i).is_hidden = true
      · rw [if_neg (by simp [hh])] at hsome
        exact ⟨i, hi, hh, (validateHiddenColumn_isSome_iff qc i).mp hsome⟩
      · rw [if_pos (by simp [Bool.not_eq_true] at hh; simp [hh])] at hsome
        simp at hsome
    · rintro ⟨i, hi, hh, hbad⟩
      refine ⟨i, List.mem_range.mpr hi, ?_⟩
      rw [if_neg (by simp [hh])]
      exact (validateHiddenColumn_isSome_iff qc i).mpr hbad
  constructor
  · cases hv : validateTableFunctionArguments s qc with
    | none =>
      have heq : bestIndexTableFunction lg s est qc
          = (sqliteOk, some (bestIndexInfo lg s est qc)) := by
        unfold bestIndexTableFunction
        rw [hv]
      constructor
      · intro h
        rw [heq] at h
        norm_num [sqliteOk, sqliteConstraintErr] at h
      · intro hex
        have hsome := hval.mpr hex
        rw [hv] at hsome
        simp at hsome
    | some e =>
      have heq : bestIndexTableFunction lg s est qc
          = (sqliteConstraintErr, none) := by
        unfold bestIndexTableFunction
        rw [hv]
      constructor
      · intro _
        apply hval.mp
        rw [hv]
        simp
      · intro _
        rw [heq]
  · intro h
    cases hv : validateTableFunctionArguments s qc with
    | none =>
      unfold bestIndexTableFunction
      rw [hv]
    | some e =>
      have heq : bestIndexTableFunction lg s est qc
          = (sqliteConstraintErr, none) := by
        unfold bestIndexTableFunction
        rw [hv]
      rw [heq] at h
      exact absurd rfl h

/-- C7 witness: the characterisation applied to the table-function schema,
once with a well-formed constraint set (success branch) and once with an
empty constraint set (the hidden column is unconstrained). -/
theorem bestIndexTableFunction_constraint_iff_witness :
    bestIndexTableFunction lgOne tfSchema 10 tfGoodQc
      = (sqliteOk, some (bestIndexInfo lgOne tfSchema 10 tfGoodQc))
    ∧ (bestIndexTableFunction lgOne tfSchema 10 ⟨[], []⟩).1
        = sqliteConstraintErr :=
  ⟨(bestIndexTableFunction_constraint_iff lgOne tfSchema 10 tfGoodQc).2
     (by decide),
   (bestIndexTableFunction_constraint_iff lgOne tfSchema 10 ⟨[], []⟩).1.mpr
     ⟨1, by decide, by decide, Or.inl (by simp)⟩⟩

/-- If the zipped constraint/value list contains a translated regex
constraint whose value is not a compilable string, the population loop
ends in an error, whatever the argument state. -/
theorem populateLoop_error_of_bad_regex (regexCompiles : String → Bool)
    (argIdx : List (Option Nat)) :
    ∀ (l : List (QcConstraint × SqlValue)) (args : List SqlValue)
      (cs : QcConstraint) (v : SqlValue),
      (cs, v) ∈ l →
      sqliteOpToFilterOp cs.op = some FilterOp.regex →
      (∀ sv, v = SqlValue.str sv → regexCompiles sv = false) →
      ∃ e, populateLoop regexCompiles argIdx l args = .error e := by
  intro l
  induction l with
  | nil =>
    intro args cs v hmem _ _
    exact absurd hmem (List.not_mem_nil _)
  | cons hd tl ih =>
    intro args cs v hmem hop hbad
    obtain ⟨c0, v0⟩ := hd
    rcases List.mem_cons.mp hmem with hhd | htl
    · obtain ⟨hc, hv⟩ := Prod.mk.injEq .. ▸ hhd
      have hcheck : ∃ e, regexCheck regexCompiles FilterOp.regex v = some e := by
        cases hvv : v with
        | str sv =>
          have hb := hbad sv hvv
          exact ⟨"regex pattern does not compile", by simp [regexCheck, hb]⟩
        | null => exact ⟨"Value has to be a string", by simp [regexCheck]⟩
        | long n => exact ⟨"Value has to be a string", by simp [regexCheck]⟩
        | dbl => exact ⟨"Value has to be a string", by simp [regexCheck]⟩
        | bytes => exact ⟨"Value has to be a string", by simp [regexCheck]⟩
      obtain ⟨e, he⟩ := hcheck
      simp only [populateLoop, ← hc, ← hv, hop, he]
      exact ⟨e, rfl⟩
    · simp only [populateLoop]
      cases hop0 : sqliteOpToFilterOp c0.op with
      | none =>
        simp only [hop0]
        exact ih args cs v htl hop hbad
      | some op0 =>
        simp only [hop0]
        cases hcheck : regexCheck regexCompiles op0 v0 with
        | some e =>
          simp only [hcheck]
          exact ⟨e, rfl⟩
        | none =>
          simp only [hcheck]
          cases hai : argIdx.getD c0.column none with
          | none =>
            obtain ⟨e, he⟩ := ih args cs v htl hop hbad
            simp only [hai, he]
            exact ⟨e, rfl⟩
          | some ai =>
            simp only [hai]
            exact ih (args.set ai v0) cs v htl hop hbad

/-- C8: if any translated constraint handed to Filter is a regex whose
value is not a string or does not compile, the whole Filter call returns
an error produced before the upstream table is consulted: the same error
results for every QueryToRowMap function of every result type. -/
theorem cursorFilter_error_of_bad_regex (regexCompiles : String → Bool)
    (argIdx : List (Option Nat)) (args0 : List SqlValue)
    (qc : QueryConstraints) (argv : List SqlValue)
    (cs : QcConstraint) (v : SqlValue)
    (hmem : (cs, v) ∈ qc.constraints.zip argv)
    (hop : sqliteOpToFilterOp cs.op = some FilterOp.regex)
    (hbad : ∀ sv, v = SqlValue.str sv → regexCompiles sv = false) :
    ∃ e, populateLoop regexCompiles argIdx (qc.constraints.zip argv) args0
          = .error e
      ∧ ∀ (τ : Type) (queryToRowMap : List Constraint → List Order → τ),
          cursorFilter regexCompiles queryToRowMap argIdx args0 qc argv
            = .error e := by
  obtain ⟨e, he⟩ := populateLoop_error_of_bad_regex regexCompiles argIdx
    (qc.constraints.zip argv) args0 cs v hmem hop hbad
  refine ⟨e, he, ?_⟩
  intro τ queryToRowMap
  unfold cursorFilter
  rw [he]

/-- C8 witness: a regex constraint with an integer value aborts Filter
with the same error for two different upstream row-map functions. -/
theorem cursorFilter_error_of_bad_regex_witness :
    ∃ e, populateLoop (fun _ => true) [none] (regexQc.constraints.zip
          [SqlValue.long 3]) [] = .error e
      ∧ ∀ (τ : Type) (queryToRowMap : List Constraint → List Order → τ),
          cursorFilter (fun _ => true) queryToRowMap [none] [] regexQc
            [SqlValue.long 3] = .error e :=
  cursorFilter_error_of_bad_regex (fun _ => true) [none] [] regexQc
    [SqlValue.long 3] ⟨0, .regexp⟩ (SqlValue.long 3) (by decide) (by decide)
    (fun sv h => by cases h)

/-- Appending a fresh binding to the interner makes its key found. -/
theorem findInterned_append_fresh (key : Nat × String) (v : Nat) :
    ∀ l : List ((Nat × String) × Nat),
      findInterned key l = none →
      findInterned key (l ++ [(key, v)]) = some v := by
  intro l
  induction l with
  | nil =>
    intro _
    simp [findInterned]
  | cons e rest ih =>
    intro h
    simp only [findInterned, List.cons_append] at h ⊢
    by_cases he : e.1 = key
    · rw [if_pos he] at h
      exact absurd h (by simp)
    · rw [if_neg he] at h ⊢
      exact ih h

/-- C9: InternFrame without a JIT delegate is idempotent: a second call
with the same (rel_pc, name) returns the same frame id and leaves the
state unchanged, and OnFrameCreated fires exactly once per distinct
(rel_pc, name) key, namely on the call that first interns it. -/
theorem internFrame_idempotent (mid : Nat) (st : FrameState) (relPc : Nat)
    (fname : String) :
    internFrame none mid ((internFrame none mid st relPc fname).2) relPc fname
      = ((internFrame none mid st relPc fname).1,
         (internFrame none mid st relPc fname).2)
    ∧ (internFrame none mid st relPc fname).2.notifications
      = st.notifications ++
        (if findInterned (relPc, fname) st.internedFrames = none
         then [(internFrame none mid st relPc fname).1] else []) := by
  cases hfind : findInterned (relPc, fname) st.internedFrames with
  | some fid =>
    have h1 : internFrame none mid st relPc fname = (fid, st) := by
      simp [internFrame, internFrameImpl, hfind]
    rw [h1]
    exact ⟨h1, by simp [hfind]⟩
  | none =>
    have h1 : internFrame none mid st relPc fname
        = (st.frameTable.length,
           { frameTable := st.frameTable ++ [⟨fname, mid, relPc⟩],
             internedFrames := st.internedFrames
               ++ [((relPc, fname), st.frameTable.length)],
             framesByRelPc := pushFrameAt relPc st.frameTable.length
               st.framesByRelPc,
             notifications := st.notifications ++ [st.frameTable.length] }) := by
      simp [internFrame, internFrameImpl, hfind]
    rw [h1]
    have h2 : findInterned (relPc, fname)
        (st.internedFrames ++ [((relPc, fname), st.frameTable.length)])
        = some st.frameTable.length :=
      findInterned_append_fresh (relPc, fname) st.frameTable.length
        st.internedFrames hfind
    constructor
    · simp [internFrame, internFrameImpl, h2]
    · simp [hfind]

/-- C1 evaluation at the failing input: after a kDifferent reset on an
empty cache, three identical kSame Filter calls with the single equality
constraint on the non-sorted column c0 leave the cache unpopulated and
the counter at 3; only the fourth kSame call populates the cache with the
copy sorted ascending by c0 and latches it, and a fifth call leaves the
state unchanged, filtering against the latched table. -/
theorem tryCacheCreateSortedTable_populates_on_fourth_same :
    cacheReset.repeatedCacheCount = 0
    ∧ cacheReset.sortedCacheTable = none
    ∧ (cacheSame cacheReset).sortedCacheTable = none
    ∧ (cacheSame (cacheSame cacheReset)).sortedCacheTable = none
    ∧ (cacheSame (cacheSame (cacheSame cacheReset))).sortedCacheTable = none
    ∧ (cacheSame (cacheSame (cacheSame cacheReset))).repeatedCacheCount = 3
    ∧ (cacheSame (cacheSame (cacheSame (cacheSame cacheReset)))).sortedCacheTable
        = some ⟨[⟨0, false⟩]⟩
    ∧ (cacheSame (cacheSame (cacheSame (cacheSame cacheReset)))).cache
        = [([⟨0, SqliteOp.eq⟩], ⟨[⟨0, false⟩]⟩)]
    ∧ cacheSame (cacheSame (cacheSame (cacheSame (cacheSame cacheReset))))
        = cacheSame (cacheSame (cacheSame (cacheSame cacheReset))) := by
  decide

/-- C3 counterexample: a name that starts with the kallsyms marker
without being equal to it (and is not /kernel) is classified as kernel
core by the code: on an empty tracker it is installed as the singleton
kernel core and no kernel module is inserted. -/
theorem isKernelModule_prefix_counterexample :
    isKernelModule kallsymsTextParams.name = false
    ∧ kallsymsTextParams.name ≠ "[kernel.kallsyms]"
    ∧ kallsymsTextParams.name ≠ "/kernel"
    ∧ createKernelMemoryMapping emptyTracker kallsymsTextParams
        = some (mkKernelMapping 0 kallsymsTextParams,
            ⟨1, some (mkKernelMapping 0 kallsymsTextParams), [],
             [mkKernelMapping 0 kallsymsTextParams]⟩) := by
  refine ⟨by decide, by decide, by decide, by decide⟩

/-- C3 (amended): CreateKernelMemoryMapping classifies params as kernel
core iff the name starts with the kallsyms marker or equals /kernel; a
kernel-module name is fatal exactly on overlap with an existing module
and otherwise appended to kernel_modules with the core untouched; a
kernel-core name returns the existing core when the range matches, is
fatal when it differs, and installs the singleton core when none
exists. -/
theorem createKernelMemoryMapping_spec (st : MappingTrackerState)
    (p : CreateMappingParams) :
    (isKernelModule p.name = false
      ↔ (strStartsWith "[kernel.kallsyms]" p.name = true ∨ p.name = "/kernel"))
    ∧ (isKernelModule p.name = true →
        ((createKernelMemoryMapping st p = none
            ↔ ∃ e ∈ st.kernelModules, rangesOverlap e.1 p.memoryRange = true)
         ∧ (∀ m st1, createKernelMemoryMapping st p = some (m, st1) →
              m = mkKernelMapping st.nextMappingId p
              ∧ st1.kernelModules = st.kernelModules ++ [(p.memoryRange, m)]
              ∧ st1.kernel = st.kernel)))
    ∧ (isKernelModule p.name = false →
        ∀ k, st.kernel = some k →
          ((p.memoryRange = k.memoryRange →
              createKernelMemoryMapping st p = some (k, st))
           ∧ (p.memoryRange ≠ k.memoryRange →
              createKernelMemoryMapping st p = none)))
    ∧ (isKernelModule p.name = false → st.kernel = none →
        createKernelMemoryMapping st p
          = some (mkKernelMapping st.nextMappingId p,
              { st with
                  nextMappingId := st.nextMappingId + 1,
                  kernel := some (mkKernelMapping st.nextMappingId p),
                  mappings := st.mappings
                    ++ [mkKernelMapping st.nextMappingId p] })) := by
  refine ⟨?_, ?_, ?_, ?_⟩
  · by_cases h1 : strStartsWith "[kernel.kallsyms]" p.name = true <;>
      by_cases h2 : p.name = "/kernel" <;>
        simp [isKernelModule, h1, h2]
  · intro hmod
    rcases Bool.eq_false_or_eq_true
      (st.kernelModules.any (fun e => rangesOverlap e.1 p.memoryRange)) with
      hany | hany
    · have heq : createKernelMemoryMapping st p = none := by
        cases hk : st.kernel <;>
          simp [createKernelMemoryMapping, hmod, hk, rangeMapEmplace,
            mkKernelMapping, hany]
      constructor
      · rw [heq]
        refine iff_of_true rfl ?_
        rw [List.any_eq_true] at hany
        exact hany
      · intro m st1 h
        rw [heq] at h
        exact absurd h (by simp)
    · have heq : createKernelMemoryMapping st p
          = some (mkKernelMapping st.nextMappingId p,
              { st with
                  nextMappingId := st.nextMappingId + 1,
                  kernelModules := st.kernelModules
                    ++ [(p.memoryRange, mkKernelMapping st.nextMappingId p)],
                  mappings := st.mappings
                    ++ [mkKernelMapping st.nextMappingId p] }) := by
        cases hk : st.kernel <;>
          simp [createKernelMemoryMapping, hmod, hk, rangeMapEmplace,
            mkKernelMapping, hany]
      constructor
      · rw [heq]
        refine iff_of_false (by simp) ?_
        intro hex
        rw [← List.any_eq_true] at hex
        exact absurd hex (by simp [hany])
      · intro m st1 h
        rw [heq] at h
        obtain ⟨hm, hst⟩ := Prod.mk.injEq .. ▸ Option.some.injEq .. ▸ h
        constructor
        · exact hm.symm
        · rw [← hst, ← hm]
          exact ⟨rfl, rfl⟩
  · intro hmod k hk
    have hred : createKernelMemoryMapping st p
        = if p.memoryRange = k.memoryRange then some (k, st) else none := by
      simp only [createKernelMemoryMapping, hmod, hk]
    rw [hred]
    constructor
    · intro heq
      rw [if_pos heq]
    · intro hne
      rw [if_neg hne]
  · intro hmod hk
    simp [createKernelMemoryMapping, hmod, hk]

/-- C3 witness: the amended characterisation applied on the empty tracker
to the exact /kernel marker (fresh core install) and to a module name
(disjoint insert). -/
theorem createKernelMemoryMapping_spec_witness :
    createKernelMemoryMapping emptyTracker kernelCoreParams
      = some (mkKernelMapping emptyTracker.nextMappingId kernelCoreParams,
          { emptyTracker with
              nextMappingId := emptyTracker.nextMappingId + 1,
              kernel := some (mkKernelMapping emptyTracker.nextMappingId
                kernelCoreParams),
              mappings := emptyTracker.mappings
                ++ [mkKernelMapping emptyTracker.nextMappingId
                  kernelCoreParams] })
    ∧ ¬ (createKernelMemoryMapping emptyTracker moduleParams = none) :=
  ⟨(createKernelMemoryMapping_spec emptyTracker kernelCoreParams).2.2.2
     (by decide) rfl,
   fun h => by
     have := ((createKernelMemoryMapping_spec emptyTracker
       moduleParams).2.1 (by decide)).1.mp h
     simp [emptyTracker] at this⟩

end Perfetto
